import Mathlib

/-!
Shallow embedding of the non-overlapping buffer algorithm of
`geoutils/vector.py` (`Vector.buffer_without_overlap` and the stand-alone
helpers `extract_vertices`, `generate_voronoi_polygons`,
`generate_voronoi_with_bounds`), together with theorems checking the
natural-language specification of this algorithm against the code.

Modelling choices:
* A planar region ("geometry", in the sense of a shapely polygon or line)
  is modelled as a finite set of unit grid cells, `Geom := Finset (ℤ × ℤ)`.
  The geometry engine's exact set operations (`intersection`, `difference`,
  `union`/`dissolve`) become the exact set operations on `Finset`; `area`
  becomes cardinality, so "zero area" is "empty intersection".
* Boundary representations (what `geom_type`, `exterior` and `coords`
  expose) are modelled by an inductive type `Shape`; a dataframe row
  (`Feature`) carries both a `Shape` (for vertex extraction) and a `Geom`
  (for the set-operation pipeline); the consistency between the two is the
  geometry engine's business and is never needed by the theorems.
* Genuinely external collaborators (scipy's Voronoi construction, shapely's
  `polygonize`, geopandas' `explode`, CRS reprojection, and the geometric
  predicate used by `gpd.tools.sjoin` — which counts boundary touching, a
  notion the closed-cell model cannot express as nonempty intersection) are
  fields of an `ExtOps` structure and quantified over in the theorems.
* CRSs are EPSG codes (`ℤ`); following the only codes appearing in the
  code, EPSG 4326 is the geographic CRS and everything else is projected.
* Python exceptions are modelled with `Except String`; user-facing warnings
  are modelled as an explicit `List String` output where the claims need
  them.
-/

namespace GeoUtils

/-- A planar coordinate pair (a vertex of a geometry). -/
abbrev Pt : Type := ℤ × ℤ

/-- A planar region: the set of unit grid cells it covers. -/
abbrev Geom : Type := Finset Pt

/-- Area of a region (`GeoSeries.area`): its number of grid cells. -/
def area (g : Geom) : ℕ := g.card

/-- Outward buffering by `r` (`GeoSeries.buffer(r)`): Chebyshev dilation,
every cell within distance `r` of a cell of `g` in both coordinates. -/
def buffer (g : Geom) (r : ℕ) : Geom :=
  g.biUnion (fun p => Finset.Icc (p.1 - (r : ℤ)) (p.1 + (r : ℤ)) ×ˢ Finset.Icc (p.2 - (r : ℤ)) (p.2 + (r : ℤ)))

/-- Union of a list of regions, as computed by `GeoDataFrame.dissolve()` and
by the geometry aggregation of `dissolve(by=...)`. -/
def unionAll (l : List Geom) : Geom := l.foldl (· ∪ ·) ∅

/-- Boundary representation of a shapely geometry, exposing exactly what
`extract_vertices` inspects: `geom_type`, exteriors and coordinates. -/
inductive Shape where
  | polygon (exterior : List Pt) (interiors : List (List Pt))
  | multiPolygon (polys : List (List Pt × List (List Pt)))
  | lineString (coords : List Pt)
  | multiLineString (lines : List (List Pt))
  | point (p : Pt)
  | geometryCollection
deriving DecidableEq, Repr

/-- The `geom_type` string of a shapely geometry. -/
def geomTypeStr : Shape → String
  | .polygon _ _ => "Polygon"
  | .multiPolygon _ => "MultiPolygon"
  | .lineString _ => "LineString"
  | .multiLineString _ => "MultiLineString"
  | .point _ => "Point"
  | .geometryCollection => "GeometryCollection"

/-- One row of a `GeoDataFrame`: its geometry, seen both as a boundary
representation (`shape`) and as the region it covers (`region`). -/
structure Feature where
  shape : Shape
  region : Geom
deriving DecidableEq

/-- A `GeoDataFrame`: an ordered sequence of geometries (identities are the
positions) sharing one CRS (an EPSG code). -/
structure GDF where
  features : List Feature
  crs : ℤ
deriving DecidableEq

/-- The dataframe returned by `unique_voronoi.dissolve(by="index_left")`:
rows indexed by original-geometry identity, plus a CRS. -/
structure ResultGDF where
  rows : List (ℕ × Geom)
  crs : ℤ
deriving DecidableEq

/-- Decidable equality for `Except`, so that concrete runs of the embedded
functions can be checked by `decide`. -/
def exceptDecEq {ε α : Type} [DecidableEq ε] [DecidableEq α] : DecidableEq (Except ε α) := fun x y =>
  match x, y with
  | .error e, .error e' =>
    if h : e = e' then isTrue (by rw [h]) else isFalse (by simp [h])
  | .error _, .ok _ => isFalse (by simp)
  | .ok _, .error _ => isFalse (by simp)
  | .ok a, .ok a' =>
    if h : a = a' then isTrue (by rw [h]) else isFalse (by simp [h])

instance {ε α : Type} [DecidableEq ε] [DecidableEq α] : DecidableEq (Except ε α) := exceptDecEq

/-- Per-row centroid (`GeoSeries.centroid`), as the mean of the covered
cells, with x first (longitude) and y second (latitude). -/
def centroidQ (g : Geom) : ℚ × ℚ :=
  (((g.sum (fun p => p.1) : ℤ) : ℚ) / (g.card : ℚ), ((g.sum (fun p => p.2) : ℤ) : ℚ) / (g.card : ℚ))

/-- Modelled from the spec: `latlon_to_utm` lives in `geoutils.projtools`,
whose source is not part of this development; the spec describes it as
resolving "the Universal Transverse Mercator zone containing" a
latitude/longitude pair, so this is the standard UTM zoning, zone
`⌊(lon + 180)/6⌋ + 1` with the hemisphere given by the sign of the
latitude. -/
def latlon_to_utm (lat lon : ℚ) : ℤ × Bool :=
  (Int.floor ((lon + 180) / 6) + 1, decide (0 ≤ lat))

/-- Modelled from the spec: `utm_to_epsg` lives in `geoutils.projtools`;
the standard EPSG codes for UTM zones are `32600 + zone` on the northern
hemisphere and `32700 + zone` on the southern one. -/
def utm_to_epsg (utm : ℤ × Bool) : ℤ :=
  (if utm.2 then 32600 else 32700) + utm.1

/-- Whether an EPSG code denotes a geographic (non-projected) CRS. The CRS
database is external; of the codes this algorithm produces, EPSG 4326 is
the geographic one and the UTM codes are projected. -/
def isGeographic (crs : ℤ) : Bool := crs == 4326

/-- The warning geopandas emits when `.area` is evaluated on a geoseries
whose CRS is geographic. -/
def geographicAreaWarning : String :=
  "Geometry is in a geographic CRS. Results from area are likely incorrect."

/-- `GeoSeries.area` on a series holding one region: the value together
with the warnings the library emits while computing it. -/
def seriesArea (crs : ℤ) (g : Geom) : ℕ × List String :=
  (area g, if isGeographic crs then [geographicAreaWarning] else [])

/-- A `warnings.catch_warnings()` block with
`warnings.filterwarnings("ignore", msg)`: warnings matching the message
are dropped, everything else propagates to the user. -/
def filterWarnings (msg : String) (ws : List String) : List String :=
  ws.filter (fun s => !(s == msg))

/-- The external collaborators of the algorithm: CRS reprojection, scipy's
Voronoi diagram (vertices plus ridge index lists, `-1` marking an unbounded
end), shapely's `polygonize`, geopandas' `explode` (splitting a multi-part
geometry into single parts) and the geometric predicate evaluated by
`gpd.tools.sjoin` (shapely's `intersects`, which also counts pure boundary
contact and therefore is not expressible as nonempty cell intersection in
the grid model). -/
structure ExtOps where
  reprojectShape : ℤ → ℤ → Shape → Shape
  reprojectGeom : ℤ → ℤ → Geom → Geom
  vorVertices : List Pt → List Pt
  vorRidgeVertices : List Pt → List (List ℤ)
  polygonize : List (List Pt) → List Geom
  explode : Geom → List Geom
  sjoinPred : Geom → Geom → Bool

/-- `GeoDataFrame.to_crs(epsg=...)`: reproject every row, record the new
CRS. -/
def reprojectGDF (ops : ExtOps) (epsg : ℤ) (g : GDF) : GDF :=
  ⟨g.features.map (fun f => ⟨ops.reprojectShape g.crs epsg f.shape, ops.reprojectGeom g.crs epsg f.region⟩),
    epsg⟩

/-- The exteriors contributed by one geometry in `extract_vertices`
(`vector.py`, lines 950-961): `MultiPolygon` contributes the exterior of
each constituent polygon (interior rings are ignored), `Polygon` its
exterior, `LineString` itself, `MultiLineString` each constituent line;
any other kind raises `NotImplementedError`. -/
def shapeExteriors : Shape → Except String (List (List Pt))
  | .multiPolygon polys => .ok (polys.map (fun pr => pr.1))
  | .polygon exterior _ => .ok ([exterior])
  | .lineString coords => .ok ([coords])
  | .multiLineString lines => .ok lines
  | g => .error ("Geometry type " ++ geomTypeStr g ++ " not implemented.")

/-- `extract_vertices` (`vector.py`, lines 939-965): loop over the
geometries, extending the vertex list with each geometry's exteriors; the
first unsupported kind raises, discarding everything. -/
def extract_vertices : List Shape → Except String (List (List Pt))
  | [] => .ok []
  | g :: rest =>
    match shapeExteriors g with
    | .error e => .error e
    | .ok exteriors =>
      match extract_vertices rest with
      | .error e => .error e
      | .ok vs => .ok (exteriors ++ vs)

/-- The line segments handed to `polygonize` in
`generate_voronoi_polygons` (line 984): the ridges of the Voronoi diagram
of `coords` that have no unbounded end (no `-1` index), with vertex
indices resolved into coordinates. -/
def vorLines (ops : ExtOps) (coords : List Pt) : List (List Pt) :=
  ((ops.vorRidgeVertices coords).filter (fun line => !(line.contains (-1)))).map
    (fun line => line.map (fun i => (ops.vorVertices coords).getD i.toNat (0, 0)))

/-- The message of the `ValueError` raised when no finite Voronoi polygon
can be assembled (line 987). -/
def degenerateMsg : String := "Invalid geometry, cannot generate finite Voronoi polygons"

/-- `generate_voronoi_polygons` (`vector.py`, lines 968-993): extract all
vertices, flatten them, build the bounded Voronoi ridges, polygonize them,
and raise if no closed cell results; otherwise return the cells with the
input's CRS. -/
def generate_voronoi_polygons (ops : ExtOps) (gdf : GDF) : Except String (List Geom × ℤ) :=
  match extract_vertices (gdf.features.map (fun f => f.shape)) with
  | .error e => .error e
  | .ok vertices =>
    let coords := vertices.flatten
    let polys := ops.polygonize (vorLines ops coords)
    if polys.length = 0 then
      .error degenerateMsg
    else
      .ok (polys, gdf.crs)

/-- `generate_voronoi_with_bounds` (`vector.py`, lines 996-1032): clip every
raw cell to `bound_poly` (the clipped series keeps one entry per raw cell,
empty or not), compute the gaps `bound_poly` minus the union of the clipped
cells, evaluate the total gap area inside a `filterwarnings("ignore", ...)`
block that suppresses the geographic-CRS area warning, and append the gap
region when that area is nonzero. Returns the cells, their CRS, and the
warnings that escape to the user. -/
def generate_voronoi_with_bounds (ops : ExtOps) (gdf : GDF) (bound_poly : Geom) :
    Except String (List Geom × ℤ × List String) :=
  match generate_voronoi_polygons ops gdf with
  | .error e => .error e
  | .ok (voronoi, _) =>
    let voronoi_crop := voronoi.map (fun c => c ∩ bound_poly)
    let voronoi_merged := unionAll voronoi_crop
    let gaps := bound_poly \ voronoi_merged
    let areaW := seriesArea gdf.crs gaps
    let emitted := filterWarnings geographicAreaWarning areaW.2
    let tot_area := areaW.1
    if tot_area ≠ 0 then
      .ok (voronoi_crop ++ [gaps], gdf.crs, emitted)
    else
      .ok (voronoi_crop, gdf.crs, emitted)

/-- `GeoDataFrame.dissolve()` with no key (line 871): union of all row
regions. -/
def dissolveAll (gdf : GDF) : Geom := unionAll (gdf.features.map (fun f => f.region))

/-- Modelled from the spec: `bounds2poly` lives in `geoutils.projtools`,
whose source is not part of this development; the spec describes the
tessellation boundary it provides as "the union boundary polygon of all
inputs" and "the dissolved union of all input geometries", so it is the
dissolved union of the rows. -/
def bounds2poly (gdf : GDF) : Geom := unionAll (gdf.features.map (fun f => f.region))

/-- The left-hand identities matching one right-hand piece under the
spatial join predicate: all row indices of `lefts` whose geometry relates
to `p`. -/
def matchesFor (pred : Geom → Geom → Bool) (lefts : List Geom) (p : Geom) : List ℕ :=
  (List.range lefts.length).filter (fun i => pred (lefts.getD i ∅) p)

/-- One row of the output of `gpd.tools.sjoin(gdf, voronoi_gdf,
how="right")`: the right (piece) index, the matched left identity
(`index_left`, `none` for the NaN of an unmatched piece) and the right
geometry. -/
structure JoinRow where
  pieceId : ℕ
  index_left : Option ℕ
  geom : Geom
deriving DecidableEq

/-- Rows of the right spatial join, starting at piece index `k`: each piece
contributes one row per matched left identity, and a single `none` row when
nothing matches (`how="right"` keeps every right row). -/
def sjoinRightAux (pred : Geom → Geom → Bool) (lefts : List Geom) : ℕ → List Geom → List JoinRow
  | _, [] => []
  | k, p :: rest =>
    (match matchesFor pred lefts p with
      | [] => [⟨k, none, p⟩]
      | ms => ms.map (fun i => ⟨k, some i, p⟩)) ++ sjoinRightAux pred lefts (k + 1) rest

/-- `gpd.tools.sjoin(gdf, voronoi_gdf, how="right")` (line 896). -/
def sjoinRight (pred : Geom → Geom → Bool) (lefts : List Geom) (pieces : List Geom) : List JoinRow :=
  sjoinRightAux pred lefts 0 pieces

/-- `np.unique` on a sequence of integer labels: the sorted list of the
distinct values. Insertion sort is used so that concrete runs reduce
inside the kernel. -/
def npUnique (l : List ℕ) : List ℕ := List.insertionSort (· ≤ ·) l.dedup

/-- The first join row carrying a given piece index. -/
def firstRowWith (rows : List JoinRow) (pid : ℕ) : Option JoinRow :=
  rows.find? (fun r => r.pieceId == pid)

/-- Lines 905-907: `np.unique(joined_voronoi.index, return_index=True)`
followed by `iloc` — for every piece index present (sorted ascending),
retain only the first row carrying it. -/
def uniqueVoronoi (rows : List JoinRow) : List JoinRow :=
  (npUnique (rows.map (fun r => r.pieceId))).filterMap (firstRowWith rows)

/-- Line 917: `unique_voronoi.dissolve(by="index_left")` — group the rows
by matched identity (NaN rows are dropped by pandas' groupby), keys sorted
ascending, and union the geometry of each group. -/
def dissolveBy (rows : List JoinRow) : List (ℕ × Geom) :=
  (npUnique (rows.filterMap (fun r => r.index_left))).map
    (fun k => (k, unionAll ((rows.filter (fun r => r.index_left == some k)).map (fun r => r.geom))))

/-- Lines 853-864: the EPSG code of the local UTM zone the metric branch
selects — reproject the collection to EPSG 4326, read the centroid of its
first row (`centroid.y.values[0]`, `centroid.x.values[0]`), and resolve
the UTM zone of that latitude/longitude pair. Fails like the numpy indexing
does when the collection has no row. -/
def utmEpsgOf (ops : ExtOps) (self : GDF) : Except String ℤ :=
  match ((reprojectGDF ops 4326 self).features.map (fun f => centroidQ f.region)).head? with
  | none => .error ("index 0 is out of bounds")
  | some c => .ok (utm_to_epsg (latlon_to_utm c.2 c.1))

/-- `Vector.buffer_without_overlap` (`vector.py`, lines 822-931). The
receiver is modelled by its geodataframe (`self.ds`; `self.crs` is its
CRS). The `plot` branches only render diagnostics and do not touch the
returned value, so they are omitted. Steps, in source order: optional
reprojection to the local UTM zone; dissolve; outward buffer; difference
(the buffer band); tessellation boundary buffered outward; bounded Voronoi
cells; intersection of every cell with the band; explode into single
parts; right spatial join onto the original rows; first-occurrence
deduplication; dissolve by matched identity; optional reprojection back to
the original CRS. -/
def buffer_without_overlap (ops : ExtOps) (self : GDF) (buffer_size : ℕ) (metric : Bool) :
    Except String ResultGDF :=
  match (if metric then (utmEpsgOf ops self).map (fun epsg => reprojectGDF ops epsg self)
    else .ok self) with
  | .error e => .error e
  | .ok gdf =>
    let merged := dissolveAll gdf
    let merged_buffer := buffer merged buffer_size
    let buf := merged_buffer \ merged
    let bound_poly := buffer (bounds2poly gdf) buffer_size
    match generate_voronoi_with_bounds ops gdf bound_poly with
    | .error e => .error e
    | .ok (voronoi_all, _, _) =>
      let voronoi_diff := voronoi_all.map (fun c => c ∩ buf)
      let pieces := (voronoi_diff.map ops.explode).flatten
      let joined := sjoinRight ops.sjoinPred (gdf.features.map (fun f => f.region)) pieces
      let unique_voronoi := uniqueVoronoi joined
      let merged_voronoi := dissolveBy unique_voronoi
      if metric then
        .ok ⟨merged_voronoi.map (fun kg => (kg.1, ops.reprojectGeom gdf.crs self.crs kg.2)), self.crs⟩
      else
        .ok ⟨merged_voronoi, gdf.crs⟩

/-! Basic lemmas about the building blocks. -/

theorem mem_foldl_union (l : List Geom) (acc : Geom) (x : Pt) :
    x ∈ l.foldl (· ∪ ·) acc ↔ x ∈ acc ∨ ∃ g ∈ l, x ∈ g := by
  induction l generalizing acc with
  | nil => simp
  | cons g rest ih =>
    simp only [List.foldl_cons, ih, Finset.mem_union, List.mem_cons]
    constructor
    · rintro (⟨h | h⟩ | ⟨g', hg', hx⟩)
      · exact Or.inl h
      · exact Or.inr ⟨g, Or.inl rfl, h⟩
      · exact Or.inr ⟨g', Or.inr hg', hx⟩
    · rintro (h | ⟨g', hg' | hg', hx⟩)
      · exact Or.inl (Or.inl h)
      · exact Or.inl (Or.inr (hg' ▸ hx))
      · exact Or.inr ⟨g', hg', hx⟩

theorem mem_unionAll (l : List Geom) (x : Pt) : x ∈ unionAll l ↔ ∃ g ∈ l, x ∈ g := by
  simp [unionAll, mem_foldl_union]

theorem subset_unionAll {l : List Geom} {g : Geom} (hg : g ∈ l) : g ⊆ unionAll l := by
  intro x hx
  exact (mem_unionAll l x).mpr ⟨g, hg, hx⟩

theorem disjoint_unionAll {l₁ l₂ : List Geom}
    (h : ∀ a ∈ l₁, ∀ b ∈ l₂, Disjoint a b) : Disjoint (unionAll l₁) (unionAll l₂) := by
  rw [Finset.disjoint_left]
  intro x hx₁ hx₂
  obtain ⟨a, ha, hxa⟩ := (mem_unionAll l₁ x).mp hx₁
  obtain ⟨b, hb, hxb⟩ := (mem_unionAll l₂ x).mp hx₂
  exact Finset.disjoint_left.mp (h a ha b hb) hxa hxb

/-! Spec-side definitions used to state the claims (these follow the words
of the specification, to be compared with the embedded code). -/

/-- Spec side: whether a geometry kind is one of the four kinds the spec
declares supported by vertex extraction. -/
def isSupported : Shape → Bool
  | .polygon _ _ => true
  | .multiPolygon _ => true
  | .lineString _ => true
  | .multiLineString _ => true
  | _ => false

/-- Spec side: the exterior boundaries of a supported geometry — the
exterior ring of a polygon, one ring per constituent of a multi-polygon,
a line itself, each constituent of a multi-line; interior holes nowhere. -/
def supportedExteriors : Shape → List (List Pt)
  | .polygon exterior _ => [exterior]
  | .multiPolygon polys => polys.map (fun pr => pr.1)
  | .lineString coords => [coords]
  | .multiLineString lines => lines
  | _ => []

/-- Spec side: erase the interior holes of (multi-)polygons, leaving
everything else untouched. -/
def dropHoles : Shape → Shape
  | .polygon exterior _ => .polygon exterior []
  | .multiPolygon polys => .multiPolygon (polys.map (fun pr => (pr.1, [])))
  | s => s

/-- Step equation for `extract_vertices` on a nonempty list. -/
theorem extract_vertices_cons (g : Shape) (rest : List Shape) :
    extract_vertices (g :: rest) =
      match shapeExteriors g with
      | .error e => .error e
      | .ok exteriors =>
        match extract_vertices rest with
        | .error e => .error e
        | .ok vs => .ok (exteriors ++ vs) := rfl

/-- C4: Vertex extraction raises a fatal unsupported-kind error, with no
partial result, for any geometry whose kind is not one of Polygon,
MultiPolygon, LineString, MultiLineString; for supported kinds it extracts
only exterior boundaries, ignoring interior holes of polygons. The first
conjunct settles the supported case (the output is exactly the
concatenation of exterior boundaries), the second that interior holes are
ignored (erasing them never changes the output), the third that the
presence of an unsupported kind yields the unsupported-kind error and no
(partial) result. -/
theorem extract_vertices_kinds (gs : List Shape) :
    ((∀ s ∈ gs, isSupported s = true) →
        extract_vertices gs = .ok ((gs.map supportedExteriors).flatten))
    ∧ extract_vertices gs = extract_vertices (gs.map dropHoles)
    ∧ ((∃ s ∈ gs, isSupported s = false) →
        ∃ t, extract_vertices gs = .error ("Geometry type " ++ t ++ " not implemented.")) := by
  induction gs with
  | nil => refine ⟨fun _ => rfl, rfl, ?_⟩; rintro ⟨s, hs, -⟩; exact absurd hs (List.not_mem_nil s)
  | cons g rest ih =>
    obtain ⟨ih₁, ih₂, ih₃⟩ := ih
    refine ⟨?_, ?_, ?_⟩
    · intro hsup
      have hrest := ih₁ (fun s hs => hsup s (List.mem_cons_of_mem g hs))
      have hg := hsup g (List.mem_cons_self g rest)
      cases g with
      | polygon e holes =>
        rw [extract_vertices_cons]; simp only [shapeExteriors]; rw [hrest]
        simp [supportedExteriors]
      | multiPolygon ps =>
        rw [extract_vertices_cons]; simp only [shapeExteriors]; rw [hrest]
        simp [supportedExteriors]
      | lineString cs =>
        rw [extract_vertices_cons]; simp only [shapeExteriors]; rw [hrest]
        simp [supportedExteriors]
      | multiLineString ls =>
        rw [extract_vertices_cons]; simp only [shapeExteriors]; rw [hrest]
        simp [supportedExteriors]
      | point p => simp [isSupported] at hg
      | geometryCollection => simp [isSupported] at hg
    · cases g with
      | polygon e holes =>
        simp only [List.map_cons]
        rw [extract_vertices_cons, extract_vertices_cons]
        simp only [dropHoles, shapeExteriors]
        rw [← ih₂]
      | multiPolygon ps =>
        simp only [List.map_cons]
        rw [extract_vertices_cons, extract_vertices_cons]
        simp only [dropHoles, shapeExteriors, List.map_map]
        rw [← ih₂]
        exact rfl
      | lineString cs =>
        simp only [List.map_cons]
        rw [extract_vertices_cons, extract_vertices_cons]
        simp only [dropHoles, shapeExteriors]
        rw [← ih₂]
      | multiLineString ls =>
        simp only [List.map_cons]
        rw [extract_vertices_cons, extract_vertices_cons]
        simp only [dropHoles, shapeExteriors]
        rw [← ih₂]
      | point p =>
        simp only [List.map_cons]
        rw [extract_vertices_cons, extract_vertices_cons]
        simp only [dropHoles, shapeExteriors]
      | geometryCollection =>
        simp only [List.map_cons]
        rw [extract_vertices_cons, extract_vertices_cons]
        simp only [dropHoles, shapeExteriors]
    · rintro ⟨s, hmem, hbad⟩
      rcases List.mem_cons.mp hmem with hs | hs
      · subst hs
        cases s with
        | polygon e holes => simp [isSupported] at hbad
        | multiPolygon ps => simp [isSupported] at hbad
        | lineString cs => simp [isSupported] at hbad
        | multiLineString ls => simp [isSupported] at hbad
        | point p =>
          exact ⟨"Point", by rw [extract_vertices_cons]; rfl⟩
        | geometryCollection =>
          exact ⟨"GeometryCollection", by rw [extract_vertices_cons]; rfl⟩
      · obtain ⟨t, ht⟩ := ih₃ ⟨s, hs, hbad⟩
        clear hmem
        cases g with
        | polygon e holes =>
          exact ⟨t, by rw [extract_vertices_cons]; simp only [shapeExteriors]; rw [ht]⟩
        | multiPolygon ps =>
          exact ⟨t, by rw [extract_vertices_cons]; simp only [shapeExteriors]; rw [ht]⟩
        | lineString cs =>
          exact ⟨t, by rw [extract_vertices_cons]; simp only [shapeExteriors]; rw [ht]⟩
        | multiLineString ls =>
          exact ⟨t, by rw [extract_vertices_cons]; simp only [shapeExteriors]; rw [ht]⟩
        | point p =>
          exact ⟨"Point", by rw [extract_vertices_cons]; rfl⟩
        | geometryCollection =>
          exact ⟨"GeometryCollection", by rw [extract_vertices_cons]; rfl⟩

/-- Whether an exceptional computation succeeded. -/
def isOkE {ε α : Type} : Except ε α → Bool
  | .ok _ => true
  | .error _ => false

/-- The value of a successful exceptional computation, with a default. -/
def exceptGetD {ε α : Type} (x : Except ε α) (d : α) : α :=
  match x with
  | .ok a => a
  | .error _ => d

/-- Witness for `extract_vertices_kinds`: a fully supported list (a polygon
with a hole and a line) extracts exactly the exteriors, and a list
containing a point raises, yielding no result at all. -/
theorem extract_vertices_kinds_witness :
    extract_vertices
        [.polygon [(0, 0), (2, 0), (2, 2)] [[(1, 1)]], .lineString [(5, 5)]] =
      .ok [[(0, 0), (2, 0), (2, 2)], [(5, 5)]]
    ∧ isOkE (extract_vertices [.lineString [(5, 5)], .point (3, 3)]) = false := by
  constructor
  · have h := (extract_vertices_kinds
      [.polygon [(0, 0), (2, 0), (2, 2)] [[(1, 1)]], .lineString [(5, 5)]]).1 (by decide)
    exact h.trans (by decide)
  · obtain ⟨t, ht⟩ := (extract_vertices_kinds [.lineString [(5, 5)], .point (3, 3)]).2.2
      ⟨.point (3, 3), by decide, by decide⟩
    rw [ht]
    rfl

/-! Concrete instances of the external collaborators, used to exercise the
embedded pipeline on explicit inputs. -/

/-- A 3×3 block of cells around the origin. -/
def wCell0 : Geom := buffer {(0, 0)} 1

/-- A 3×3 block of cells around `(6, 0)`. -/
def wCell6 : Geom := buffer {(6, 0)} 1

/-- A concrete engine: identity reprojection, a two-cell tessellation
around the two inputs of `wGdf`, trivial explode, and a sjoin predicate
that (like shapely's `intersects`) counts touching regions. -/
def wOps : ExtOps where
  reprojectShape := fun _ _ s => s
  reprojectGeom := fun _ _ g => g
  vorVertices := fun _ => []
  vorRidgeVertices := fun _ => []
  polygonize := fun _ => [wCell0, wCell6]
  explode := fun g => [g]
  sjoinPred := fun a b => decide (buffer a 1 ∩ b ≠ ∅)

/-- Two single-cell line features at `(0,0)` and `(6,0)`, in a projected
CRS. -/
def wGdf : GDF :=
  ⟨[⟨.lineString [(0, 0)], {(0, 0)}⟩, ⟨.lineString [(6, 0)], {(6, 0)}⟩], 32631⟩

/-- A concrete engine whose tessellation is a single cell covering the
whole neighbourhood of the origin. -/
def cexOps : ExtOps where
  reprojectShape := fun _ _ s => s
  reprojectGeom := fun _ _ g => g
  vorVertices := fun _ => []
  vorRidgeVertices := fun _ => []
  polygonize := fun _ => [wCell0]
  explode := fun g => [g]
  sjoinPred := fun a b => decide (buffer a 1 ∩ b ≠ ∅)

/-- Two features covering the same single cell at the origin. -/
def cexGdf : GDF :=
  ⟨[⟨.lineString [(0, 0)], {(0, 0)}⟩, ⟨.lineString [(0, 0)], {(0, 0)}⟩], 32631⟩

/-- Two single-cell features far apart in longitude, in the geographic
CRS: the first sits at longitude −100, the second at longitude 100. -/
def c9Gdf : GDF :=
  ⟨[⟨.lineString [(-100, 10)], {(-100, 10)}⟩, ⟨.lineString [(100, 10)], {(100, 10)}⟩], 4326⟩

/-- A concrete engine producing one cell near the origin and one far-away
cell that misses every bounding polygon used with it. -/
def c6Ops : ExtOps where
  reprojectShape := fun _ _ s => s
  reprojectGeom := fun _ _ g => g
  vorVertices := fun _ => []
  vorRidgeVertices := fun _ => []
  polygonize := fun _ => [wCell0, {(50, 50)}]
  explode := fun g => [g]
  sjoinPred := fun a b => decide (buffer a 1 ∩ b ≠ ∅)

/-- One single-cell line feature at the origin, projected CRS. -/
def c6Gdf : GDF := ⟨[⟨.lineString [(0, 0)], {(0, 0)}⟩], 32631⟩

/-- One single-cell line feature at the origin, geographic CRS. -/
def c8Gdf : GDF := ⟨[⟨.lineString [(0, 0)], {(0, 0)}⟩], 4326⟩

/-! Helper equations for the embedded pipeline. -/

theorem except_map_ok {ε α β : Type} (f : α → β) (a : α) :
    (Except.ok a : Except ε α).map f = .ok (f a) := rfl

theorem except_map_error {ε α β : Type} (f : α → β) (e : ε) :
    (Except.error e : Except ε α).map f = .error e := rfl

/-- Evaluation of `generate_voronoi_with_bounds` once the raw cells are
known: clip every cell, append the gap region when its area is nonzero,
and filter the area warning. -/
theorem gvwb_eq (ops : ExtOps) (gdf : GDF) (bound_poly : Geom) {cells : List Geom} {crs : ℤ}
    (h : generate_voronoi_polygons ops gdf = .ok (cells, crs)) :
    generate_voronoi_with_bounds ops gdf bound_poly =
      .ok ((if area (bound_poly \ unionAll (cells.map (fun c => c ∩ bound_poly))) ≠ 0
              then cells.map (fun c => c ∩ bound_poly) ++
                [bound_poly \ unionAll (cells.map (fun c => c ∩ bound_poly))]
              else cells.map (fun c => c ∩ bound_poly)),
            gdf.crs,
            filterWarnings geographicAreaWarning
              (seriesArea gdf.crs (bound_poly \ unionAll (cells.map (fun c => c ∩ bound_poly)))).2) := by
  unfold generate_voronoi_with_bounds
  rw [h]
  simp only [ne_eq, seriesArea]
  split
  · rfl
  · rfl

/-- C5: In `buffer_without_overlap`, the bounding polygon used for the
bounded Voronoi tessellation (`bounds2poly(gdf).buffer(buffer_size)`,
lines 880-881) equals the dissolved union of all input geometries
(`gdf.dissolve()`) expanded outward by the buffer size. -/
theorem tessellation_bound_eq_buffered_union (gdf : GDF) (buffer_size : ℕ) :
    buffer (bounds2poly gdf) buffer_size = buffer (dissolveAll gdf) buffer_size := rfl

/-- C3: When zero closed Voronoi cells can be assembled from the extracted
vertices (the engine's `polygonize` returns nothing, e.g. for
degenerate/collinear input whose ridges are all unbounded), the Voronoi
construction fails with the descriptive degenerate-geometry `ValueError`,
and the error propagates unchanged through `generate_voronoi_with_bounds`
and `buffer_without_overlap` — no retry, no recovery, no partial output. -/
theorem generate_voronoi_degenerate_error (ops : ExtOps) (gdf : GDF) (vs : List (List Pt))
    (hv : extract_vertices (gdf.features.map (fun f => f.shape)) = .ok vs)
    (hp : ops.polygonize (vorLines ops vs.flatten) = []) :
    generate_voronoi_polygons ops gdf = .error degenerateMsg
    ∧ (∀ bound_poly : Geom, generate_voronoi_with_bounds ops gdf bound_poly = .error degenerateMsg)
    ∧ (∀ buffer_size : ℕ,
        buffer_without_overlap ops gdf buffer_size false = .error degenerateMsg) := by
  have h₁ : generate_voronoi_polygons ops gdf = .error degenerateMsg := by
    unfold generate_voronoi_polygons
    rw [hv]
    simp [hp]
  have h₂ : ∀ bound_poly : Geom,
      generate_voronoi_with_bounds ops gdf bound_poly = .error degenerateMsg := by
    intro bound_poly
    unfold generate_voronoi_with_bounds
    rw [h₁]
  refine ⟨h₁, h₂, fun buffer_size => ?_⟩
  unfold buffer_without_overlap
  simp only [Bool.false_eq_true, if_false, reduceIte]
  rw [h₂ (buffer (bounds2poly gdf) buffer_size)]

/-- Witness for `generate_voronoi_degenerate_error`: a concrete engine
whose `polygonize` finds no closed cell makes all three functions fail
with the degenerate-geometry error. -/
theorem generate_voronoi_degenerate_error_witness :
    generate_voronoi_polygons
        ⟨fun _ _ s => s, fun _ _ g => g, fun _ => [], fun _ => [], fun _ => [], fun g => [g],
          fun _ _ => true⟩ c6Gdf = .error degenerateMsg
    ∧ generate_voronoi_with_bounds
        ⟨fun _ _ s => s, fun _ _ g => g, fun _ => [], fun _ => [], fun _ => [], fun g => [g],
          fun _ _ => true⟩ c6Gdf wCell0 = .error degenerateMsg
    ∧ buffer_without_overlap
        ⟨fun _ _ s => s, fun _ _ g => g, fun _ => [], fun _ => [], fun _ => [], fun g => [g],
          fun _ _ => true⟩ c6Gdf 1 false = .error degenerateMsg := by
  have h := generate_voronoi_degenerate_error
    ⟨fun _ _ s => s, fun _ _ g => g, fun _ => [], fun _ => [], fun _ => [], fun g => [g],
      fun _ _ => true⟩ c6Gdf [[(0, 0)]] (by decide) (by decide)
  exact ⟨h.1, h.2.1 wCell0, h.2.2 1⟩

/-- C6 (amended): in bounded Voronoi generation every raw cell is clipped
to the bounding polygon by geometric intersection, but cells whose
intersection is empty are retained as empty geometries rather than
dropped: the clipped list is elementwise `cell ∩ bound_poly` and has
exactly the length of the raw cell list. -/
theorem generate_voronoi_with_bounds_clip (ops : ExtOps) (gdf : GDF) (bound_poly : Geom)
    (cells : List Geom) (crs : ℤ)
    (h : generate_voronoi_polygons ops gdf = .ok (cells, crs)) :
    generate_voronoi_with_bounds ops gdf bound_poly =
      .ok ((if area (bound_poly \ unionAll (cells.map (fun c => c ∩ bound_poly))) ≠ 0
              then cells.map (fun c => c ∩ bound_poly) ++
                [bound_poly \ unionAll (cells.map (fun c => c ∩ bound_poly))]
              else cells.map (fun c => c ∩ bound_poly)),
            gdf.crs,
            filterWarnings geographicAreaWarning
              (seriesArea gdf.crs (bound_poly \ unionAll (cells.map (fun c => c ∩ bound_poly)))).2)
    ∧ (cells.map (fun c => c ∩ bound_poly)).length = cells.length := by
  exact ⟨gvwb_eq ops gdf bound_poly h, by simp⟩

/-- Counterexample to C6 as stated: with the tessellation
`[wCell0, {(50, 50)}]` and bounding polygon `wCell0`, the far cell has
empty intersection with the bounding polygon, yet the result still holds
two cells — the empty geometry is present in the output, not dropped. -/
theorem generate_voronoi_with_bounds_clip_cex :
    ({(50, 50)} : Geom) ∩ wCell0 = ∅
    ∧ generate_voronoi_with_bounds c6Ops c6Gdf wCell0 = .ok ([wCell0, ∅], 32631, [])
    ∧ (∅ : Geom) ∈ ([wCell0, ∅] : List Geom) := by decide

/-- Witness for `generate_voronoi_with_bounds_clip` at the engine
`c6Ops` and input `c6Gdf` with bounding polygon `wCell0`. -/
theorem generate_voronoi_with_bounds_clip_witness :
    generate_voronoi_with_bounds c6Ops c6Gdf wCell0 =
      .ok ((if area (wCell0 \ unionAll ([wCell0, {(50, 50)}].map (fun c => c ∩ wCell0))) ≠ 0
              then [wCell0, {(50, 50)}].map (fun c => c ∩ wCell0) ++
                [wCell0 \ unionAll ([wCell0, {(50, 50)}].map (fun c => c ∩ wCell0))]
              else [wCell0, {(50, 50)}].map (fun c => c ∩ wCell0)),
            c6Gdf.crs,
            filterWarnings geographicAreaWarning
              (seriesArea c6Gdf.crs
                (wCell0 \ unionAll ([wCell0, {(50, 50)}].map (fun c => c ∩ wCell0)))).2)
    ∧ ([wCell0, {(50, 50)}].map (fun c => c ∩ wCell0)).length = [wCell0, {(50, 50)}].length :=
  generate_voronoi_with_bounds_clip c6Ops c6Gdf wCell0 [wCell0, {(50, 50)}] 32631 (by decide)

/-- C8 (amended): when the gap-area comparison of bounded Voronoi
generation runs under a geographic CRS, the library does produce the
geographic-CRS area warning, but `generate_voronoi_with_bounds` suppresses
it with `warnings.filterwarnings("ignore", ...)`: no error is raised and
no warning reaches the user. -/
theorem geographic_area_warning_suppressed (ops : ExtOps) (gdf : GDF) (bound_poly : Geom)
    (cells : List Geom) (crs : ℤ)
    (hg : isGeographic gdf.crs = true)
    (h : generate_voronoi_polygons ops gdf = .ok (cells, crs)) :
    (seriesArea gdf.crs (bound_poly \ unionAll (cells.map (fun c => c ∩ bound_poly)))).2 =
      [geographicAreaWarning]
    ∧ generate_voronoi_with_bounds ops gdf bound_poly =
        .ok ((if area (bound_poly \ unionAll (cells.map (fun c => c ∩ bound_poly))) ≠ 0
                then cells.map (fun c => c ∩ bound_poly) ++
                  [bound_poly \ unionAll (cells.map (fun c => c ∩ bound_poly))]
                else cells.map (fun c => c ∩ bound_poly)),
              gdf.crs, ([] : List String)) := by
  have hw : (seriesArea gdf.crs
      (bound_poly \ unionAll (cells.map (fun c => c ∩ bound_poly)))).2 =
      [geographicAreaWarning] := by
    simp [seriesArea, hg]
  refine ⟨hw, ?_⟩
  rw [gvwb_eq ops gdf bound_poly h, hw]
  simp [filterWarnings]

/-- Counterexample to C8 as stated: under the geographic CRS of `c8Gdf`
the gap area is nonzero (the unreliable comparison actually runs) and the
library-side warning is produced, yet the function's warning output is
empty — the caveat is suppressed, not surfaced to the user. -/
theorem geographic_area_warning_suppressed_cex :
    isGeographic c8Gdf.crs = true
    ∧ area (buffer wCell0 1 \
        unionAll ([wCell0, {(50, 50)}].map (fun c => c ∩ buffer wCell0 1))) ≠ 0
    ∧ (seriesArea c8Gdf.crs (buffer wCell0 1 \
        unionAll ([wCell0, {(50, 50)}].map (fun c => c ∩ buffer wCell0 1)))).2 =
        [geographicAreaWarning]
    ∧ generate_voronoi_with_bounds c6Ops c8Gdf (buffer wCell0 1) =
        .ok ([wCell0, ∅, buffer wCell0 1 \ wCell0], 4326, ([] : List String)) := by decide

/-- Witness for `geographic_area_warning_suppressed` at the engine
`c6Ops` and the geographic-CRS input `c8Gdf`. -/
theorem geographic_area_warning_suppressed_witness :
    (seriesArea c8Gdf.crs (buffer wCell0 1 \
        unionAll ([wCell0, {(50, 50)}].map (fun c => c ∩ buffer wCell0 1)))).2 =
      [geographicAreaWarning]
    ∧ generate_voronoi_with_bounds c6Ops c8Gdf (buffer wCell0 1) =
        .ok ((if area (buffer wCell0 1 \
                unionAll ([wCell0, {(50, 50)}].map (fun c => c ∩ buffer wCell0 1))) ≠ 0
                then [wCell0, {(50, 50)}].map (fun c => c ∩ buffer wCell0 1) ++
                  [buffer wCell0 1 \
                    unionAll ([wCell0, {(50, 50)}].map (fun c => c ∩ buffer wCell0 1))]
                else [wCell0, {(50, 50)}].map (fun c => c ∩ buffer wCell0 1)),
              c8Gdf.crs, ([] : List String)) :=
  geographic_area_warning_suppressed c6Ops c8Gdf (buffer wCell0 1) [wCell0, {(50, 50)}] 4326
    (by decide) (by decide)

/-! Lemmas about the spatial join, the deduplication and the dissolve. -/

theorem matchesFor_lt {pred : Geom → Geom → Bool} {lefts : List Geom} {p : Geom} {i : ℕ}
    (hi : i ∈ matchesFor pred lefts p) : i < lefts.length := by
  have := List.mem_filter.mp hi
  exact List.mem_range.mp this.1

/-- Every row produced by the right join carries a piece index in range,
the geometry of its piece, and (when matched) an identity from the match
list of that piece. -/
theorem mem_sjoinRightAux {pred : Geom → Geom → Bool} {lefts : List Geom} :
    ∀ {ps : List Geom} {k : ℕ} {r : JoinRow}, r ∈ sjoinRightAux pred lefts k ps →
      k ≤ r.pieceId ∧ r.pieceId < k + ps.length ∧ r.geom = ps.getD (r.pieceId - k) ∅ ∧
        ∀ i, r.index_left = some i → i ∈ matchesFor pred lefts r.geom := by
  intro ps
  induction ps with
  | nil => intro k r hr; simp [sjoinRightAux] at hr
  | cons p rest ih =>
    intro k r hr
    rw [sjoinRightAux] at hr
    rcases List.mem_append.mp hr with hblk | hrest
    · cases hmat : matchesFor pred lefts p with
      | nil =>
        rw [hmat] at hblk
        simp only [List.mem_singleton] at hblk
        subst hblk
        refine ⟨le_refl k, by simp, by simp, ?_⟩
        intro i hi
        exact Option.noConfusion hi
      | cons m ms =>
        rw [hmat] at hblk
        simp only [List.mem_map] at hblk
        obtain ⟨i, him, hreq⟩ := hblk
        subst hreq
        refine ⟨le_refl k, by simp, by simp, ?_⟩
        intro j hj
        simp only [Option.some.injEq] at hj
        subst hj
        simp only [Nat.sub_self, List.getD_cons_zero]
        rw [hmat]
        exact him
    · obtain ⟨h1, h2, h3, h4⟩ := ih hrest
      refine ⟨le_trans (Nat.le_succ k) h1, by simp only [List.length_cons] at h2 ⊢ ; omega, ?_, h4⟩
      have harr : r.pieceId - k = (r.pieceId - (k + 1)) + 1 := by omega
      rw [harr, List.getD_cons_succ]
      exact h3

theorem find?_of_all_pieceId {pid k : ℕ} (hne : k ≠ pid) (l : List JoinRow)
    (hall : ∀ r ∈ l, r.pieceId = k) :
    List.find? (fun r => r.pieceId == pid) l = none := by
  apply List.find?_eq_none.mpr
  intro r hr
  simp [hall r hr, hne]

/-- The first join row of a given piece carries the head of that piece's
match list (or `none` when the match list is empty). -/
theorem firstRowWith_sjoinRightAux (pred : Geom → Geom → Bool) (lefts : List Geom) :
    ∀ (ps : List Geom) (k pid : ℕ), k ≤ pid → pid < k + ps.length →
      firstRowWith (sjoinRightAux pred lefts k ps) pid =
        some ⟨pid, (matchesFor pred lefts (ps.getD (pid - k) ∅)).head?, ps.getD (pid - k) ∅⟩ := by
  intro ps
  induction ps with
  | nil =>
    intro k pid h1 h2
    simp only [List.length_nil, Nat.add_zero] at h2
    omega
  | cons p rest ih =>
    intro k pid h1 h2
    rw [sjoinRightAux]
    unfold firstRowWith
    rw [List.find?_append]
    by_cases hk : pid = k
    · subst hk
      cases hmat : matchesFor pred lefts p with
      | nil => simp [hmat]
      | cons m ms => simp [hmat]
    · have hblocknone :
          List.find? (fun r => r.pieceId == pid)
            (match matchesFor pred lefts p with
              | [] => ([⟨k, none, p⟩] : List JoinRow)
              | ms => ms.map (fun i => (⟨k, some i, p⟩ : JoinRow))) = none := by
        apply find?_of_all_pieceId (fun h => hk h.symm)
        intro r hr
        cases hmat : matchesFor pred lefts p with
        | nil =>
          simp only [hmat, List.mem_singleton] at hr
          rw [hr]
        | cons m ms =>
          simp only [hmat, List.mem_map] at hr
          obtain ⟨i, -, hreq⟩ := hr
          rw [← hreq]
      rw [hblocknone, Option.none_or]
      have hres := ih (k + 1) pid (by omega) (by simp at h2; omega)
      unfold firstRowWith at hres
      rw [hres]
      have harr : pid - k = (pid - (k + 1)) + 1 := by omega
      rw [harr, List.getD_cons_succ]

theorem toFinset_map_const (k : ℕ) : ∀ (ms : List ℕ), ms ≠ [] →
    ((ms.map (fun _ => k)).toFinset : Finset ℕ) = {k} := by
  intro ms
  induction ms with
  | nil => intro h; exact absurd rfl h
  | cons m tl ih =>
    intro _
    cases tl with
    | nil => simp
    | cons m2 tl2 =>
      rw [List.map_cons, List.toFinset_cons, ih (by simp)]
      simp

/-- The piece indices occurring among the join rows are exactly the
interval of piece positions. -/
theorem sjoinRightAux_ids {pred : Geom → Geom → Bool} {lefts : List Geom} :
    ∀ (ps : List Geom) (k : ℕ),
      ((sjoinRightAux pred lefts k ps).map (fun r => r.pieceId)).toFinset =
        Finset.Ico k (k + ps.length) := by
  intro ps
  induction ps with
  | nil => intro k; simp [sjoinRightAux]
  | cons p rest ih =>
    intro k
    rw [sjoinRightAux, List.map_append, List.toFinset_append, ih (k + 1)]
    have hblk : (((match matchesFor pred lefts p with
        | [] => ([⟨k, none, p⟩] : List JoinRow)
        | ms => ms.map (fun i => (⟨k, some i, p⟩ : JoinRow))) : List JoinRow).map
          (fun r : JoinRow => r.pieceId)).toFinset = {k} := by
      cases hmat : matchesFor pred lefts p with
      | nil => simp
      | cons m ms =>
        rw [List.map_map]
        have hc : (fun r => JoinRow.pieceId r) ∘ (fun i => (⟨k, some i, p⟩ : JoinRow)) =
            fun _ => k := rfl
        rw [hc]
        exact toFinset_map_const k (m :: ms) (by simp)
    rw [hblk]
    ext x
    simp only [Finset.mem_union, Finset.mem_singleton, Finset.mem_Ico, List.length_cons]
    omega

theorem npUnique_nodup (l : List ℕ) : (npUnique l).Nodup :=
  (List.perm_insertionSort _ _).symm.nodup (List.nodup_dedup l)

theorem mem_npUnique {l : List ℕ} {x : ℕ} : x ∈ npUnique l ↔ x ∈ l :=
  ((List.perm_insertionSort _ _).mem_iff).trans List.mem_dedup

theorem npUnique_toFinset (l : List ℕ) : (npUnique l).toFinset = l.toFinset := by
  ext x
  simp [mem_npUnique]

/-- When the labels cover exactly `0, …, n-1`, `np.unique` returns the
initial segment in order. -/
theorem npUnique_eq_range {l : List ℕ} {n : ℕ} (h : l.toFinset = Finset.range n) :
    npUnique l = List.range n := by
  have hperm : (npUnique l).Perm (List.range n) := by
    apply List.perm_of_nodup_nodup_toFinset_eq (npUnique_nodup l) (List.nodup_range n)
    rw [npUnique_toFinset, h]
    ext x
    simp
  exact List.eq_of_perm_of_sorted hperm (List.sorted_insertionSort _ _)
    ((List.sorted_lt_range n).imp le_of_lt)

theorem filterMap_eq_map_of_some {α β : Type} {l : List α} {f : α → Option β} {g : α → β}
    (h : ∀ x ∈ l, f x = some (g x)) : l.filterMap f = l.map g := by
  induction l with
  | nil => rfl
  | cons a tl ih =>
    rw [List.filterMap_cons, h a (List.mem_cons_self a tl), List.map_cons,
      ih (fun x hx => h x (List.mem_cons_of_mem a hx))]

/-- The deduplication step on the output of the right spatial join keeps,
for every piece in order, exactly the first join row of that piece — the
one carrying the head of the piece's match list. -/
theorem uniqueVoronoi_sjoinRight (pred : Geom → Geom → Bool) (lefts pieces : List Geom) :
    uniqueVoronoi (sjoinRight pred lefts pieces) =
      (List.range pieces.length).map (fun pid =>
        (⟨pid, (matchesFor pred lefts (pieces.getD pid ∅)).head?, pieces.getD pid ∅⟩ : JoinRow)) := by
  unfold uniqueVoronoi sjoinRight
  have hids : ((sjoinRightAux pred lefts 0 pieces).map (fun r => r.pieceId)).toFinset =
      Finset.range pieces.length := by
    rw [sjoinRightAux_ids pieces 0, Nat.zero_add, ← Finset.range_eq_Ico]
  rw [npUnique_eq_range hids]
  apply filterMap_eq_map_of_some
  intro pid hpid
  have := firstRowWith_sjoinRightAux pred lefts pieces 0 pid (Nat.zero_le pid)
    (by simpa using List.mem_range.mp hpid)
  simpa using this

/-- Rows whose `index_left` is NaN (`none`) contribute nothing to the
grouped dissolve: filtering them away beforehand never changes the
result. -/
theorem dissolveBy_filter_isSome (rows : List JoinRow) :
    dissolveBy rows = dissolveBy (rows.filter (fun r => r.index_left.isSome)) := by
  unfold dissolveBy
  have h1 : (rows.filter (fun r => r.index_left.isSome)).filterMap (fun r => r.index_left) =
      rows.filterMap (fun r => r.index_left) := by
    induction rows with
    | nil => rfl
    | cons r tl ih =>
      cases hio : r.index_left with
      | none => simp [List.filter_cons, List.filterMap_cons, hio, ih]
      | some j => simp [List.filter_cons, List.filterMap_cons, hio, ih]
  rw [h1]
  apply List.map_congr_left
  intro k _
  have h2 : (rows.filter (fun r => r.index_left.isSome)).filter
      (fun r => r.index_left == some k) = rows.filter (fun r => r.index_left == some k) := by
    rw [List.filter_filter]
    apply List.filter_congr
    intro r _
    cases r.index_left <;> simp
  rw [h2]

/-- C7: After the right spatial join of the exploded buffer pieces onto
the original geometries, the deduplication keeps exactly one row per piece
— the first occurrence, carrying the head of that piece's match list
(first-match-wins) — and pieces that matched nothing (NaN `index_left`)
are silently dropped by the grouped dissolve: removing them beforehand
never changes the dissolved result, and no error is raised. -/
theorem sjoin_dedup_first_match_drop_unmatched (pred : Geom → Geom → Bool)
    (lefts pieces : List Geom) :
    uniqueVoronoi (sjoinRight pred lefts pieces) =
      (List.range pieces.length).map (fun pid =>
        (⟨pid, (matchesFor pred lefts (pieces.getD pid ∅)).head?, pieces.getD pid ∅⟩ : JoinRow))
    ∧ dissolveBy (uniqueVoronoi (sjoinRight pred lefts pieces)) =
        dissolveBy ((uniqueVoronoi (sjoinRight pred lefts pieces)).filter
          (fun r => r.index_left.isSome)) :=
  ⟨uniqueVoronoi_sjoinRight pred lefts pieces,
    dissolveBy_filter_isSome (uniqueVoronoi (sjoinRight pred lefts pieces))⟩

/-! Spec-side decomposition of the main algorithm and the equations
connecting it with the embedded `buffer_without_overlap`. -/

/-- Spec side: steps 2–10 of the overlap-resolution algorithm — dissolve,
outward buffer, buffer band (difference), tessellation boundary buffered
outward, bounded Voronoi, restriction of every cell to the band, explode,
right spatial join onto the original rows, first-occurrence deduplication
and dissolve by matched identity — on an already-projected collection. -/
def bufferSteps (ops : ExtOps) (gdf : GDF) (buffer_size : ℕ) :
    Except String (List (ℕ × Geom)) :=
  match generate_voronoi_with_bounds ops gdf (buffer (bounds2poly gdf) buffer_size) with
  | .error e => .error e
  | .ok (voronoi_all, _, _) =>
    let buf := buffer (dissolveAll gdf) buffer_size \ dissolveAll gdf
    let voronoi_diff := voronoi_all.map (fun c => c ∩ buf)
    let pieces := (voronoi_diff.map ops.explode).flatten
    let joined := sjoinRight ops.sjoinPred (gdf.features.map (fun f => f.region)) pieces
    .ok (dissolveBy (uniqueVoronoi joined))

/-- With `metric=False` the algorithm is exactly the ten steps applied to
the stored geodataframe, wrapped with its own CRS. -/
theorem buffer_without_overlap_false_eq (ops : ExtOps) (self : GDF) (buffer_size : ℕ) :
    buffer_without_overlap ops self buffer_size false =
      (bufferSteps ops self buffer_size).map (fun rows => ResultGDF.mk rows self.crs) := by
  unfold buffer_without_overlap bufferSteps
  cases h : generate_voronoi_with_bounds ops self (buffer (bounds2poly self) buffer_size) with
  | error e => simp [h, except_map_error]
  | ok trip =>
    obtain ⟨voronoi_all, crs2, w⟩ := trip
    simp [h, except_map_ok]

/-- With `metric=True` and a resolvable UTM zone, the algorithm is the ten
steps applied to the collection reprojected to that zone, with every
result geometry reprojected back to the receiver's CRS. -/
theorem reprojectGDF_crs (ops : ExtOps) (epsg : ℤ) (g : GDF) :
    (reprojectGDF ops epsg g).crs = epsg := rfl

theorem buffer_without_overlap_true_eq (ops : ExtOps) (self : GDF) (buffer_size : ℕ) (e : ℤ)
    (he : utmEpsgOf ops self = .ok e) :
    buffer_without_overlap ops self buffer_size true =
      (bufferSteps ops (reprojectGDF ops e self) buffer_size).map
        (fun rows => ResultGDF.mk
          (rows.map (fun kg => (kg.1, ops.reprojectGeom e self.crs kg.2))) self.crs) := by
  unfold buffer_without_overlap bufferSteps
  rw [he]
  cases h : generate_voronoi_with_bounds ops (reprojectGDF ops e self)
      (buffer (bounds2poly (reprojectGDF ops e self)) buffer_size) with
  | error e2 => simp [h, except_map_error, except_map_ok]
  | ok trip =>
    obtain ⟨voronoi_all, crs2, w⟩ := trip
    simp [h, except_map_error, except_map_ok, reprojectGDF_crs]

/-- When the UTM resolution fails (empty collection), the metric branch
propagates that failure. -/
theorem buffer_without_overlap_true_err (ops : ExtOps) (self : GDF) (buffer_size : ℕ)
    (msg : String) (he : utmEpsgOf ops self = .error msg) :
    buffer_without_overlap ops self buffer_size true = .error msg := by
  unfold buffer_without_overlap
  rw [he]
  rfl

theorem bufferSteps_ok_rows {ops : ExtOps} {gdf : GDF} {buffer_size : ℕ}
    {rows : List (ℕ × Geom)} (h : bufferSteps ops gdf buffer_size = .ok rows) :
    ∃ pieces : List Geom, rows = dissolveBy (uniqueVoronoi
      (sjoinRight ops.sjoinPred (gdf.features.map (fun f => f.region)) pieces)) := by
  unfold bufferSteps at h
  cases hg : generate_voronoi_with_bounds ops gdf (buffer (bounds2poly gdf) buffer_size) with
  | error e => rw [hg] at h; exact Except.noConfusion h
  | ok trip =>
    obtain ⟨cells, crs2, w⟩ := trip
    rw [hg] at h
    injection h with h
    exact ⟨_, h.symm⟩

theorem mem_of_mem_uniqueVoronoi {rows : List JoinRow} {r : JoinRow}
    (h : r ∈ uniqueVoronoi rows) : r ∈ rows := by
  unfold uniqueVoronoi at h
  obtain ⟨pid, -, hfind⟩ := List.mem_filterMap.mp h
  exact List.mem_of_find?_eq_some hfind

theorem dissolveBy_fst_eq_npUnique (rows : List JoinRow) :
    (dissolveBy rows).map Prod.fst = npUnique (rows.filterMap (fun r => r.index_left)) := by
  unfold dissolveBy
  rw [List.map_map]
  show List.map id _ = _
  rw [List.map_id]

theorem dissolveBy_fst_nodup (rows : List JoinRow) :
    ((dissolveBy rows).map Prod.fst).Nodup := by
  rw [dissolveBy_fst_eq_npUnique]
  exact npUnique_nodup _

theorem mem_dissolveBy_fst {rows : List JoinRow} {k : ℕ}
    (hk : k ∈ (dissolveBy rows).map Prod.fst) : ∃ r ∈ rows, r.index_left = some k := by
  rw [dissolveBy_fst_eq_npUnique, mem_npUnique] at hk
  obtain ⟨r, hr, hrk⟩ := List.mem_filterMap.mp hk
  exact ⟨r, hr, hrk⟩

/-- Every identity key of the grouped dissolve is the index of some
original row. -/
theorem dissolveBy_uniq_sjoin_keys_lt {pred : Geom → Geom → Bool} {lefts pieces : List Geom}
    {k : ℕ} (hk : k ∈ (dissolveBy (uniqueVoronoi (sjoinRight pred lefts pieces))).map Prod.fst) :
    k < lefts.length := by
  obtain ⟨r, hr, hrk⟩ := mem_dissolveBy_fst hk
  have hrr := mem_of_mem_uniqueVoronoi hr
  obtain ⟨-, -, -, h4⟩ := mem_sjoinRightAux hrr
  exact matchesFor_lt (h4 k hrk)

/-- C2 (amended): every successful run of `buffer_without_overlap` returns
a collection whose identities are pairwise distinct (no identity is ever
duplicated), are all valid input identities, and whose CRS is the CRS of
the original input; input identities to which no piece was first-assigned
are however missing from the result (the documented micro-gap caveat),
as the counterexample shows. -/
theorem buffer_without_overlap_identity (ops : ExtOps) (self : GDF) (buffer_size : ℕ)
    (metric : Bool) (out : ResultGDF)
    (hrun : buffer_without_overlap ops self buffer_size metric = .ok out) :
    (out.rows.map Prod.fst).Nodup
    ∧ out.rows.map Prod.fst ⊆ List.range self.features.length
    ∧ out.crs = self.crs := by
  cases metric with
  | false =>
    rw [buffer_without_overlap_false_eq] at hrun
    cases hsteps : bufferSteps ops self buffer_size with
    | error e => rw [hsteps] at hrun; exact Except.noConfusion hrun
    | ok rows =>
      rw [hsteps, except_map_ok] at hrun
      injection hrun with hout
      subst hout
      obtain ⟨pieces, hrows⟩ := bufferSteps_ok_rows hsteps
      subst hrows
      refine ⟨dissolveBy_fst_nodup _, ?_, rfl⟩
      intro k hk
      rw [List.mem_range]
      have := dissolveBy_uniq_sjoin_keys_lt hk
      simpa using this
  | true =>
    cases he : utmEpsgOf ops self with
    | error msg =>
      rw [buffer_without_overlap_true_err ops self buffer_size msg he] at hrun
      exact Except.noConfusion hrun
    | ok e =>
      rw [buffer_without_overlap_true_eq ops self buffer_size e he] at hrun
      cases hsteps : bufferSteps ops (reprojectGDF ops e self) buffer_size with
      | error e2 => rw [hsteps] at hrun; exact Except.noConfusion hrun
      | ok rows =>
        rw [hsteps, except_map_ok] at hrun
        injection hrun with hout
        subst hout
        obtain ⟨pieces, hrows⟩ := bufferSteps_ok_rows hsteps
        have hfst : (rows.map (fun kg => ((kg.1 : ℕ), ops.reprojectGeom e self.crs kg.2))).map
            Prod.fst = rows.map Prod.fst := by
          rw [List.map_map]
          rfl
        refine ⟨?_, ?_, rfl⟩
        · rw [hfst, hrows]
          exact dissolveBy_fst_nodup _
        · rw [hfst]
          intro k hk
          rw [List.mem_range]
          rw [hrows] at hk
          have := dissolveBy_uniq_sjoin_keys_lt hk
          simpa [reprojectGDF] using this

/-- Counterexample to C2 as stated: two inputs covering the same cell —
every buffer piece matches both, first-match-wins assigns everything to
identity 0, and identity 1 is missing from the result (one row instead of
two). -/
theorem buffer_without_overlap_identity_cex :
    cexGdf.features.length = 2
    ∧ buffer_without_overlap cexOps cexGdf 1 false =
        .ok ⟨[(0, wCell0 \ {(0, 0)})], 32631⟩
    ∧ (1 : ℕ) ∉ ([(0, wCell0 \ {(0, 0)})] : List (ℕ × Geom)).map Prod.fst := by decide

/-- The concrete successful run used by the witnesses. -/
def wOut : ResultGDF := exceptGetD (buffer_without_overlap wOps wGdf 1 false) ⟨[], 0⟩

/-- Witness for `buffer_without_overlap_identity` on the two-square input
`wGdf`. -/
theorem buffer_without_overlap_identity_witness :
    (wOut.rows.map Prod.fst).Nodup
    ∧ wOut.rows.map Prod.fst ⊆ List.range wGdf.features.length
    ∧ wOut.crs = wGdf.crs :=
  buffer_without_overlap_identity wOps wGdf 1 false wOut (by decide)

/-! The metric branch and the UTM zone selection (C9). -/

/-- Centroid of a single-cell region. -/
theorem centroidQ_singleton (p : Pt) : centroidQ {p} = ((p.1 : ℚ), (p.2 : ℚ)) := by
  simp [centroidQ]

/-- Spec side: the UTM EPSG code of the geographic centroid of the whole
input collection — the centroid of the dissolved union of the collection
reprojected to geographic coordinates — as the claim reads. -/
def collectionUtmEpsg (ops : ExtOps) (self : GDF) : ℤ :=
  utm_to_epsg (latlon_to_utm
    (centroidQ (dissolveAll (reprojectGDF ops 4326 self))).2
    (centroidQ (dissolveAll (reprojectGDF ops 4326 self))).1)

/-- C9 (amended): when `metric=True`, `buffer_without_overlap` selects the
UTM zone containing the geographic centroid of the FIRST geometry of the
collection (obtained by reprojecting the collection to EPSG 4326 and
reading `centroid.y.values[0]`, `centroid.x.values[0]`), reprojects the
input to that UTM CRS, runs all ten algorithm steps there, and reprojects
the final result back to the original CRS. -/
theorem metric_projection_first_centroid (ops : ExtOps) (self : GDF) (buffer_size : ℕ)
    (c : ℚ × ℚ)
    (hc : ((reprojectGDF ops 4326 self).features.map (fun f => centroidQ f.region)).head? =
      some c) :
    utmEpsgOf ops self = .ok (utm_to_epsg (latlon_to_utm c.2 c.1))
    ∧ buffer_without_overlap ops self buffer_size true =
        (bufferSteps ops (reprojectGDF ops (utm_to_epsg (latlon_to_utm c.2 c.1)) self)
            buffer_size).map
          (fun rows => ResultGDF.mk
            (rows.map (fun kg =>
              (kg.1, ops.reprojectGeom (utm_to_epsg (latlon_to_utm c.2 c.1)) self.crs kg.2)))
            self.crs) := by
  have he : utmEpsgOf ops self = .ok (utm_to_epsg (latlon_to_utm c.2 c.1)) := by
    unfold utmEpsgOf
    rw [hc]
  exact ⟨he, buffer_without_overlap_true_eq ops self buffer_size _ he⟩

/-- Counterexample to C9 as stated: for the spread collection `c9Gdf` the
code resolves the UTM zone of the first geometry's centroid (longitude
−100 → zone 14, EPSG 32614), not the zone of the whole collection's
centroid (longitude 0 → zone 31, EPSG 32631). -/
theorem metric_projection_first_centroid_cex :
    utmEpsgOf cexOps c9Gdf = .ok 32614
    ∧ collectionUtmEpsg cexOps c9Gdf = 32631
    ∧ utmEpsgOf cexOps c9Gdf ≠ .ok (collectionUtmEpsg cexOps c9Gdf) := by
  have hdec : decide ((0 : ℚ) ≤ 10) = true := by decide
  have h1 : utmEpsgOf cexOps c9Gdf = .ok 32614 := by
    unfold utmEpsgOf
    have hc : centroidQ {((-100 : ℤ), (10 : ℤ))} = ((-100 : ℚ), (10 : ℚ)) := by
      rw [centroidQ_singleton]
      norm_num
    have hhead : ((reprojectGDF cexOps 4326 c9Gdf).features.map
        (fun f => centroidQ f.region)).head? = some ((-100 : ℚ), (10 : ℚ)) := by
      simp [reprojectGDF, cexOps, c9Gdf, hc]
    rw [hhead]
    have hfl : (⌊((-100 : ℚ) + 180) / 6⌋ : ℤ) = 13 := by
      rw [Int.floor_eq_iff]; norm_num
    show Except.ok (utm_to_epsg (latlon_to_utm (10 : ℚ) (-100 : ℚ))) = Except.ok 32614
    congr 1
    unfold latlon_to_utm utm_to_epsg
    simp [hdec, hfl]
  have h2 : collectionUtmEpsg cexOps c9Gdf = 32631 := by
    unfold collectionUtmEpsg
    have hdis : dissolveAll (reprojectGDF cexOps 4326 c9Gdf) =
        ({(-100, 10), (100, 10)} : Geom) := by decide
    rw [hdis]
    have hc : centroidQ ({(-100, 10), (100, 10)} : Geom) = ((0 : ℚ), (10 : ℚ)) := by
      unfold centroidQ
      rw [Finset.sum_pair (by decide), Finset.sum_pair (by decide),
        Finset.card_pair (by decide)]
      norm_num
    rw [hc]
    have hfl : (⌊(180 : ℚ) / 6⌋ : ℤ) = 30 := by
      rw [Int.floor_eq_iff]; norm_num
    show utm_to_epsg (latlon_to_utm (10 : ℚ) (0 : ℚ)) = 32631
    unfold latlon_to_utm utm_to_epsg
    simp [hdec, hfl]
  refine ⟨h1, h2, ?_⟩
  rw [h1, h2]
  intro hcontra
  injection hcontra with hval
  exact absurd hval (by decide)

/-- Witness for `metric_projection_first_centroid` on the input `wGdf`
(whose first geometry's centroid is the origin, UTM zone 31 north). -/
theorem metric_projection_first_centroid_witness :
    utmEpsgOf wOps wGdf = .ok (utm_to_epsg (latlon_to_utm (0, 0).2 (0, 0).1))
    ∧ buffer_without_overlap wOps wGdf 1 true =
        (bufferSteps wOps (reprojectGDF wOps (utm_to_epsg (latlon_to_utm (0, 0).2 (0, 0).1)) wGdf)
            1).map
          (fun rows => ResultGDF.mk
            (rows.map (fun kg =>
              (kg.1, wOps.reprojectGeom (utm_to_epsg (latlon_to_utm (0, 0).2 (0, 0).1)) wGdf.crs
                kg.2)))
            wGdf.crs) :=
  metric_projection_first_centroid wOps wGdf 1 (0, 0)
    (by simp [reprojectGDF, wOps, wGdf, centroidQ])

/-! Disjointness of the result polygons (C1). -/

theorem pairwise_disjoint_getD {l : List Geom} (h : l.Pairwise Disjoint) {i j : ℕ}
    (hne : i ≠ j) : Disjoint (l.getD i ∅) (l.getD j ∅) := by
  by_cases hi : i < l.length
  · by_cases hj : j < l.length
    · have hp := List.pairwise_iff_get.mp h
      rw [List.getD_eq_getElem _ _ hi, List.getD_eq_getElem _ _ hj]
      rcases Nat.lt_or_ge i j with hij | hij
      · have := hp ⟨i, hi⟩ ⟨j, hj⟩ hij
        simpa [List.get_eq_getElem] using this
      · have hji : j < i := by omega
        have := hp ⟨j, hj⟩ ⟨i, hi⟩ hji
        exact (by simpa [List.get_eq_getElem] using this : Disjoint l[j] l[i]).symm
    · rw [List.getD_eq_default _ _ (le_of_not_lt hj)]
      exact Finset.disjoint_empty_right _
  · rw [List.getD_eq_default _ _ (le_of_not_lt hi)]
    exact Finset.disjoint_empty_left _

theorem pairwise_disjoint_map_inter {l : List Geom} (h : l.Pairwise Disjoint) (b : Geom) :
    (l.map (fun c => c ∩ b)).Pairwise Disjoint := by
  rw [List.pairwise_map]
  exact h.imp (fun hd => hd.mono Finset.inter_subset_left Finset.inter_subset_left)

/-- Evaluation of `generate_voronoi_polygons` once the vertices are
extracted. -/
theorem generate_voronoi_polygons_eq (ops : ExtOps) (gdf : GDF) {vs : List (List Pt)}
    (hv : extract_vertices (gdf.features.map (fun f => f.shape)) = .ok vs) :
    generate_voronoi_polygons ops gdf =
      if (ops.polygonize (vorLines ops vs.flatten)).length = 0 then .error degenerateMsg
      else .ok (ops.polygonize (vorLines ops vs.flatten), gdf.crs) := by
  unfold generate_voronoi_polygons
  rw [hv]

theorem generate_voronoi_polygons_ok_shape {ops : ExtOps} {gdf : GDF} {cells : List Geom}
    {crs : ℤ} (h : generate_voronoi_polygons ops gdf = .ok (cells, crs)) :
    ∃ ls, cells = ops.polygonize ls := by
  obtain ⟨vs, hv⟩ : ∃ vs, extract_vertices (gdf.features.map (fun f => f.shape)) = .ok vs := by
    cases hv2 : extract_vertices (gdf.features.map (fun f => f.shape)) with
    | error e =>
      unfold generate_voronoi_polygons at h
      rw [hv2] at h
      exact Except.noConfusion h
    | ok vs => exact ⟨vs, rfl⟩
  rw [generate_voronoi_polygons_eq ops gdf hv] at h
  by_cases hlen : (ops.polygonize (vorLines ops vs.flatten)).length = 0
  · rw [if_pos hlen] at h
    exact Except.noConfusion h
  · rw [if_neg hlen] at h
    injection h with h
    injection h with h1 h2
    exact ⟨_, h1.symm⟩

/-- The cells returned by the bounded Voronoi generation are pairwise
disjoint whenever the engine's `polygonize` yields pairwise disjoint
polygons: clipping preserves disjointness and the appended gap region is
disjoint from every clipped cell. -/
theorem gvwb_pairwise {ops : ExtOps} {gdf : GDF} {bound_poly : Geom} {cells : List Geom}
    {crs : ℤ} {w : List String}
    (hpoly : ∀ ls, (ops.polygonize ls).Pairwise Disjoint)
    (h : generate_voronoi_with_bounds ops gdf bound_poly = .ok (cells, crs, w)) :
    cells.Pairwise Disjoint := by
  cases hg : generate_voronoi_polygons ops gdf with
  | error e => unfold generate_voronoi_with_bounds at h; rw [hg] at h; exact Except.noConfusion h
  | ok pr =>
    obtain ⟨polys, crs2⟩ := pr
    obtain ⟨ls, hls⟩ := generate_voronoi_polygons_ok_shape hg
    have hpolys : polys.Pairwise Disjoint := hls ▸ hpoly ls
    have hcrop : (polys.map (fun c => c ∩ bound_poly)).Pairwise Disjoint :=
      pairwise_disjoint_map_inter hpolys bound_poly
    have heq := gvwb_eq ops gdf bound_poly hg
    rw [heq] at h
    injection h with h
    injection h with h1 h2
    by_cases hc : area (bound_poly \ unionAll (polys.map (fun c => c ∩ bound_poly))) ≠ 0
    · rw [if_pos hc] at h1
      rw [← h1, List.pairwise_append]
      refine ⟨hcrop, List.pairwise_singleton _ _, ?_⟩
      intro a ha b hb
      rw [List.mem_singleton] at hb
      subst hb
      exact (Finset.sdiff_disjoint.symm).mono_left (subset_unionAll ha)
    · rw [if_neg hc] at h1
      rw [← h1]
      exact hcrop

/-- The exploded pieces are pairwise disjoint: parts of different cells
are disjoint because the cells are, parts of the same cell because the
engine's explode splits a geometry into disjoint parts. -/
theorem pieces_pairwise (ops : ExtOps) {cells : List Geom} (buf : Geom)
    (hcells : cells.Pairwise Disjoint)
    (hexp₁ : ∀ g : Geom, ∀ p ∈ ops.explode g, p ⊆ g)
    (hexp₂ : ∀ g : Geom, (ops.explode g).Pairwise Disjoint) :
    (((cells.map (fun c => c ∩ buf)).map ops.explode).flatten).Pairwise Disjoint := by
  rw [List.pairwise_flatten]
  constructor
  · intro l' hl'
    obtain ⟨g, hg, rfl⟩ := List.mem_map.mp hl'
    exact hexp₂ g
  · rw [List.pairwise_map]
    have h2 : (cells.map (fun c => c ∩ buf)).Pairwise Disjoint :=
      pairwise_disjoint_map_inter hcells buf
    refine h2.imp ?_
    intro a b hd x hx y hy
    exact hd.mono (hexp₁ _ _ hx) (hexp₁ _ _ hy)

theorem firstRowWith_pieceId {rows : List JoinRow} {pid : ℕ} {r : JoinRow}
    (h : firstRowWith rows pid = some r) : r.pieceId = pid := by
  have := List.find?_some h
  simpa using this

theorem filterMap_key_nodup {ids : List ℕ} {f : ℕ → Option JoinRow} (hids : ids.Nodup)
    (hf : ∀ pid r, f pid = some r → r.pieceId = pid) :
    ((ids.filterMap f).map (fun r => r.pieceId)).Nodup := by
  induction ids with
  | nil => simp
  | cons a tl ih =>
    rw [List.filterMap_cons]
    cases hfa : f a with
    | none => exact ih hids.of_cons
    | some r =>
      rw [List.map_cons]
      refine List.nodup_cons.mpr ⟨?_, ih hids.of_cons⟩
      intro hmem
      obtain ⟨r2, hr2, hpid⟩ := List.mem_map.mp hmem
      obtain ⟨pid2, hpid2mem, hfr2⟩ := List.mem_filterMap.mp hr2
      have h1 := hf a r hfa
      have h2 := hf pid2 r2 hfr2
      rw [h2, h1] at hpid
      exact (List.nodup_cons.mp hids).1 (hpid ▸ hpid2mem)

theorem uniqueVoronoi_pieceId_nodup (rows : List JoinRow) :
    ((uniqueVoronoi rows).map (fun r => r.pieceId)).Nodup := by
  unfold uniqueVoronoi
  exact filterMap_key_nodup (npUnique_nodup _) (fun pid r h => firstRowWith_pieceId h)

/-- Distinct result polygons of the grouped dissolve are disjoint: each
group unions rows whose geometries are distinct pieces of a pairwise
disjoint piece family. -/
theorem dissolveBy_pairwise_disjoint {pieces : List Geom} (hp : pieces.Pairwise Disjoint)
    (rows : List JoinRow)
    (hgeom : ∀ r ∈ rows, r.geom = pieces.getD r.pieceId ∅)
    (hnodup : (rows.map (fun r => r.pieceId)).Nodup) :
    (dissolveBy rows).Pairwise (fun a b => Disjoint a.2 b.2) := by
  unfold dissolveBy
  rw [List.pairwise_map]
  refine (npUnique_nodup (rows.filterMap (fun r => r.index_left))).imp ?_
  intro k k' hne
  rw [Finset.disjoint_left]
  intro x hx hx2
  obtain ⟨g1, hg1, hxg1⟩ := (mem_unionAll _ x).mp hx
  obtain ⟨g2, hg2, hxg2⟩ := (mem_unionAll _ x).mp hx2
  obtain ⟨r1, hr1mem, hr1g⟩ := List.mem_map.mp hg1
  obtain ⟨r2, hr2mem, hr2g⟩ := List.mem_map.mp hg2
  obtain ⟨hr1rows, hr1k⟩ := List.mem_filter.mp hr1mem
  obtain ⟨hr2rows, hr2k⟩ := List.mem_filter.mp hr2mem
  have hr12 : r1.pieceId ≠ r2.pieceId := by
    intro heq
    have hreq := List.inj_on_of_nodup_map hnodup hr1rows hr2rows heq
    subst hreq
    rw [beq_iff_eq] at hr1k hr2k
    rw [hr1k] at hr2k
    exact hne (Option.some.injEq _ _ ▸ hr2k)
  have hdis := pairwise_disjoint_getD hp hr12
  rw [← hgeom r1 hr1rows, ← hgeom r2 hr2rows] at hdis
  rw [← hr1g] at hxg1
  rw [← hr2g] at hxg2
  exact Finset.disjoint_left.mp hdis hxg1 hxg2

/-- When the tessellation and explode behave as a tessellation (pairwise
disjoint polygonize output, explode into disjoint sub-parts), the ten
steps produce pairwise disjoint polygons. -/
theorem bufferSteps_nonoverlap {ops : ExtOps} {gdf : GDF} {buffer_size : ℕ}
    {rows : List (ℕ × Geom)}
    (hpoly : ∀ ls, (ops.polygonize ls).Pairwise Disjoint)
    (hexp₁ : ∀ g : Geom, ∀ p ∈ ops.explode g, p ⊆ g)
    (hexp₂ : ∀ g : Geom, (ops.explode g).Pairwise Disjoint)
    (h : bufferSteps ops gdf buffer_size = .ok rows) :
    rows.Pairwise (fun a b => Disjoint a.2 b.2) := by
  unfold bufferSteps at h
  cases hg : generate_voronoi_with_bounds ops gdf (buffer (bounds2poly gdf) buffer_size) with
  | error e => rw [hg] at h; exact Except.noConfusion h
  | ok trip =>
    obtain ⟨cells, crs2, w⟩ := trip
    rw [hg] at h
    injection h with h
    subst h
    have hcells := gvwb_pairwise hpoly hg
    have hpieces := pieces_pairwise ops
      (buffer (dissolveAll gdf) buffer_size \ dissolveAll gdf) hcells hexp₁ hexp₂
    apply dissolveBy_pairwise_disjoint hpieces
    · intro r hr
      have hmem := mem_of_mem_uniqueVoronoi hr
      obtain ⟨-, -, h3, -⟩ := mem_sjoinRightAux hmem
      simpa using h3
    · exact uniqueVoronoi_pieceId_nodup _

/-- C1: for every collection and positive buffer size accepted by
`buffer_without_overlap` — assuming the external engine behaves as a
tessellation engine: `polygonize` yields pairwise disjoint polygons,
`explode` splits a geometry into disjoint sub-parts of itself, and
reprojection is an injective pointwise coordinate map — any two distinct
polygons of the returned collection have a geometric intersection of zero
area. -/
theorem buffer_without_overlap_nonoverlap (ops : ExtOps) (self : GDF) (buffer_size : ℕ)
    (metric : Bool) (out : ResultGDF)
    (_hpos : 0 < buffer_size)
    (hpoly : ∀ ls, (ops.polygonize ls).Pairwise Disjoint)
    (hexp₁ : ∀ g : Geom, ∀ p ∈ ops.explode g, p ⊆ g)
    (hexp₂ : ∀ g : Geom, (ops.explode g).Pairwise Disjoint)
    (hrep : ∀ a b : ℤ, ∃ f : Pt → Pt, Function.Injective f ∧
      ∀ g : Geom, ops.reprojectGeom a b g = g.image f)
    (hrun : buffer_without_overlap ops self buffer_size metric = .ok out) :
    out.rows.Pairwise (fun a b => area (a.2 ∩ b.2) = 0) := by
  have hzero : ∀ (rows : List (ℕ × Geom)), rows.Pairwise (fun a b => Disjoint a.2 b.2) →
      rows.Pairwise (fun a b => area (a.2 ∩ b.2) = 0) := by
    intro rows h
    refine h.imp ?_
    intro a b hd
    rw [area, Finset.card_eq_zero, ← Finset.disjoint_iff_inter_eq_empty]
    exact hd
  cases metric with
  | false =>
    rw [buffer_without_overlap_false_eq] at hrun
    cases hsteps : bufferSteps ops self buffer_size with
    | error e => rw [hsteps] at hrun; exact Except.noConfusion hrun
    | ok rows =>
      rw [hsteps, except_map_ok] at hrun
      injection hrun with hout
      subst hout
      exact hzero _ (bufferSteps_nonoverlap hpoly hexp₁ hexp₂ hsteps)
  | true =>
    cases he : utmEpsgOf ops self with
    | error msg =>
      rw [buffer_without_overlap_true_err ops self buffer_size msg he] at hrun
      exact Except.noConfusion hrun
    | ok e =>
      rw [buffer_without_overlap_true_eq ops self buffer_size e he] at hrun
      cases hsteps : bufferSteps ops (reprojectGDF ops e self) buffer_size with
      | error e2 => rw [hsteps] at hrun; exact Except.noConfusion hrun
      | ok rows =>
        rw [hsteps, except_map_ok] at hrun
        injection hrun with hout
        subst hout
        obtain ⟨f, hfinj, hfim⟩ := hrep e self.crs
        have hdisj := bufferSteps_nonoverlap hpoly hexp₁ hexp₂ hsteps
        apply hzero
        rw [List.pairwise_map]
        refine hdisj.imp ?_
        intro a b hd
        show Disjoint (ops.reprojectGeom e self.crs a.2) (ops.reprojectGeom e self.crs b.2)
        rw [hfim, hfim]
        exact (Finset.disjoint_image hfinj).mpr hd

/-- Witness for `buffer_without_overlap_nonoverlap`: the two-square input
`wGdf` with a two-cell tessellation yields two disjoint result buffers. -/
theorem buffer_without_overlap_nonoverlap_witness :
    wOut.rows.Pairwise (fun a b => area (a.2 ∩ b.2) = 0) :=
  buffer_without_overlap_nonoverlap wOps wGdf 1 false wOut
    (by decide)
    (fun ls => by
      show ([wCell0, wCell6] : List Geom).Pairwise Disjoint
      decide)
    (fun g p hp => by
      have hp2 : p ∈ [g] := hp
      rw [List.mem_singleton] at hp2
      rw [hp2])
    (fun g => by
      show ([g] : List Geom).Pairwise Disjoint
      exact List.pairwise_singleton _ _)
    (fun a b => ⟨id, fun x y h => h, fun g => (Finset.image_id).symm⟩)
    (by decide)

/-! Object-identity model for the frame-effect claim (C10). Python objects
(geodataframes, geoseries, shapely geometries, joined and dissolved
frames) live on a heap of slots; every library call allocates a fresh slot
for its result, and the only in-place mutations the algorithm performs —
the `crs` assignments on freshly constructed frames inside the Voronoi
helpers (`voronoi.crs = gdf.crs`, `bound_gdf.crs = gdf.crs`,
`voronoi_all.crs = gdf.crs`) — are writes to slots allocated within the
call. With `metric=False` the working variable `gdf` aliases the
receiver's stored dataframe slot, exactly as in the source. -/

/-- A Python object handled by the algorithm. -/
inductive Obj where
  | gdf (g : GDF)
  | geom (g : Geom)
  | series (l : List Geom) (crs : Option ℤ)
  | rowsF (l : List JoinRow) (crs : Option ℤ)
  | res (rows : List (ℕ × Geom)) (crs : Option ℤ)
deriving DecidableEq

/-- The heap: slots indexed by position. -/
abbrev Heap := List Obj

/-- Dereference a slot. -/
def readH (h : Heap) (r : ℕ) : Option Obj := h[r]?

/-- Allocate a fresh slot holding `v`; returns the new heap and the fresh
reference. -/
def allocH (h : Heap) (v : Obj) : Heap × ℕ := (h ++ [v], h.length)

/-- Overwrite a slot in place (an attribute assignment). -/
def writeH (h : Heap) (r : ℕ) (v : Obj) : Heap := h.set r v

/-- Construct a fresh frame and immediately set its `crs` attribute (the
`voronoi.crs = gdf.crs` pattern): an allocation followed by a write to the
freshly allocated slot. -/
def allocSetH (h : Heap) (v₀ v₁ : Obj) : Heap × ℕ :=
  ((allocH h v₀).1.set (allocH h v₀).2 v₁, (allocH h v₀).2)

theorem allocH_fst (h : Heap) (v : Obj) : (allocH h v).1 = h ++ [v] := rfl

theorem allocH_snd (h : Heap) (v : Obj) : (allocH h v).2 = h.length := rfl

theorem set_append_length (h : Heap) (a b : Obj) : (h ++ [a]).set h.length b = h ++ [b] := by
  induction h with
  | nil => rfl
  | cons x t ih => simp [List.set, ih]

theorem allocSetH_fst (h : Heap) (v₀ v₁ : Obj) : (allocSetH h v₀ v₁).1 = h ++ [v₁] :=
  set_append_length h v₀ v₁

theorem allocSetH_snd (h : Heap) (v₀ v₁ : Obj) : (allocSetH h v₀ v₁).2 = h.length := rfl

theorem readH_append (h l : Heap) {i : ℕ} (hi : i < h.length) :
    readH (h ++ l) i = readH h i := by
  simp [readH, List.getElem?_append, hi]

/-- Heap-passing version of `buffer_without_overlap`: the receiver's
stored geodataframe (`self._ds`) lives at `selfRef`. Object events appear
in source execution order; all values are the ones computed by the pure
embedding. With `metric=False`, `gdf` aliases the receiver's slot and no
allocation happens in the projection step; with `metric=True`, `shp_wgs84`
and the reprojected `gdf` are fresh frames. The returned reference is the
slot of the frame the final `Vector` wraps. -/
def buffer_without_overlap_heap (ops : ExtOps) (h₀ : Heap) (selfRef : ℕ)
    (buffer_size : ℕ) (metric : Bool) : Except String (Heap × ℕ) :=
  match readH h₀ selfRef with
  | some (.gdf selfDs) =>
    match (if metric then
        let a₁ := allocH h₀ (.gdf (reprojectGDF ops 4326 selfDs))
        match ((reprojectGDF ops 4326 selfDs).features.map (fun f => centroidQ f.region)).head? with
        | none => .error ("index 0 is out of bounds")
        | some c =>
          let a₂ := allocH a₁.1
            (.gdf (reprojectGDF ops (utm_to_epsg (latlon_to_utm c.2 c.1)) selfDs))
          .ok (a₂.1, reprojectGDF ops (utm_to_epsg (latlon_to_utm c.2 c.1)) selfDs)
      else .ok (h₀, selfDs) : Except String (Heap × GDF)) with
    | .error e => .error e
    | .ok (h₁, gdf) =>
      let a₃ := allocH h₁ (.geom (dissolveAll gdf))
      let a₄ := allocH a₃.1 (.geom (buffer (dissolveAll gdf) buffer_size))
      let buf := buffer (dissolveAll gdf) buffer_size \ dissolveAll gdf
      let a₅ := allocH a₄.1 (.geom buf)
      let a₆ := allocH a₅.1 (.geom (bounds2poly gdf))
      let bound_poly := buffer (bounds2poly gdf) buffer_size
      let a₇ := allocH a₆.1 (.geom bound_poly)
      match generate_voronoi_polygons ops gdf with
      | .error e => .error e
      | .ok (polys, _) =>
        let a₈ := allocSetH a₇.1 (.series polys none) (.series polys (some gdf.crs))
        let cropped := polys.map (fun c => c ∩ bound_poly)
        let a₉ := allocH a₈.1 (.series cropped (some gdf.crs))
        let a₁₀ := allocH a₉.1 (.series cropped (some gdf.crs))
        let a₁₁ := allocH a₁₀.1 (.geom (unionAll cropped))
        let a₁₂ := allocSetH a₁₁.1 (.series [bound_poly] none)
          (.series [bound_poly] (some gdf.crs))
        let gaps := bound_poly \ unionAll cropped
        let a₁₃ := allocH a₁₂.1 (.series [gaps] (some gdf.crs))
        let withGaps : Heap × List Geom :=
          if area gaps ≠ 0 then
            ((allocSetH a₁₃.1 (.series (cropped ++ [gaps]) none)
              (.series (cropped ++ [gaps]) (some gdf.crs))).1, cropped ++ [gaps])
          else (a₁₃.1, cropped)
        let voronoi_diff := withGaps.2.map (fun c => c ∩ buf)
        let a₁₅ := allocH withGaps.1 (.series voronoi_diff (some gdf.crs))
        let pieces := (voronoi_diff.map ops.explode).flatten
        let a₁₆ := allocH a₁₅.1 (.series pieces (some gdf.crs))
        let a₁₇ := allocH a₁₆.1 (.series pieces (some gdf.crs))
        let joined := sjoinRight ops.sjoinPred (gdf.features.map (fun f => f.region)) pieces
        let a₁₈ := allocH a₁₇.1 (.rowsF joined (some gdf.crs))
        let a₁₉ := allocH a₁₈.1 (.rowsF (uniqueVoronoi joined) (some gdf.crs))
        let a₂₀ := allocH a₁₉.1 (.res (dissolveBy (uniqueVoronoi joined)) (some gdf.crs))
        if metric then
          let a₂₁ := allocH a₂₀.1 (.res ((dissolveBy (uniqueVoronoi joined)).map
            (fun kg => (kg.1, ops.reprojectGeom gdf.crs selfDs.crs kg.2))) (some selfDs.crs))
          .ok (a₂₁.1, a₂₁.2)
        else
          .ok (a₂₀.1, a₂₀.2)
  | _ => .error ("invalid reference")

/-- C10: `buffer_without_overlap` never mutates the receiver's stored
geodataframe: for every call that returns — including `metric=False`,
where the working variable aliases the stored frame — the receiver's slot
holds the same object before and after, and the returned collection wraps
a freshly allocated object (its reference is new, hence distinct from the
receiver's slot). -/
theorem buffer_without_overlap_heap_preserves_receiver (ops : ExtOps) (h₀ : Heap)
    (selfRef buffer_size : ℕ) (metric : Bool) (out : Heap × ℕ)
    (hrun : buffer_without_overlap_heap ops h₀ selfRef buffer_size metric = .ok out) :
    readH out.1 selfRef = readH h₀ selfRef ∧ h₀.length ≤ out.2 ∧ out.2 ≠ selfRef := by
  unfold buffer_without_overlap_heap at hrun
  cases hread : readH h₀ selfRef with
  | none => rw [hread] at hrun; exact Except.noConfusion hrun
  | some obj =>
    rw [hread] at hrun
    have hlt : selfRef < h₀.length := by
      by_contra hge
      have hnone : readH h₀ selfRef = none := by
        simp [readH, List.getElem?_eq_none (le_of_not_lt hge)]
      rw [hnone] at hread
      exact Option.noConfusion hread
    cases obj with
    | geom g => exact Except.noConfusion hrun
    | series l c => exact Except.noConfusion hrun
    | rowsF l c => exact Except.noConfusion hrun
    | res l c => exact Except.noConfusion hrun
    | gdf selfDs =>
      simp only [allocH_fst, allocH_snd, allocSetH_fst, allocSetH_snd] at hrun
      cases metric with
      | false =>
        simp only [Bool.false_eq_true, if_false, reduceIte] at hrun
        cases hg : generate_voronoi_polygons ops selfDs with
        | error e => rw [hg] at hrun; exact Except.noConfusion hrun
        | ok pr =>
          obtain ⟨polys, pcrs⟩ := pr
          rw [hg] at hrun
          split at hrun
          · exact Except.noConfusion hrun
          · split at hrun <;>
            · injection hrun with hout
              subst hout
              refine ⟨?_, ?_, ?_⟩
              · simp only [List.append_assoc]
                exact (readH_append _ _ hlt).trans hread
              · simp only [List.length_append, List.length_cons, List.length_nil]
                omega
              · simp only [List.length_append, List.length_cons, List.length_nil]
                omega
      | true =>
        simp only [if_true, reduceIte] at hrun
        cases hc : ((reprojectGDF ops 4326 selfDs).features.map
            (fun f => centroidQ f.region)).head? with
        | none => rw [hc] at hrun; exact Except.noConfusion hrun
        | some c =>
          simp only [hc] at hrun
          cases hg : generate_voronoi_polygons ops
              (reprojectGDF ops (utm_to_epsg (latlon_to_utm c.2 c.1)) selfDs) with
          | error e => rw [hg] at hrun; exact Except.noConfusion hrun
          | ok pr =>
            obtain ⟨polys, pcrs⟩ := pr
            rw [hg] at hrun
            split at hrun
            · exact Except.noConfusion hrun
            · split at hrun <;>
              · injection hrun with hout
                subst hout
                refine ⟨?_, ?_, ?_⟩
                · simp only [List.append_assoc]
                  exact (readH_append _ _ hlt).trans hread
                · simp only [List.length_append, List.length_cons, List.length_nil]
                  omega
                · simp only [List.length_append, List.length_cons, List.length_nil]
                  omega

/-- A heap holding only the receiver's geodataframe. -/
def wHeap : Heap := [Obj.gdf wGdf]

/-- The concrete heap run used by the witness. -/
def wHeapOut : Heap × ℕ :=
  exceptGetD (buffer_without_overlap_heap wOps wHeap 0 1 false) ([], 0)

/-- Witness for `buffer_without_overlap_heap_preserves_receiver`: a
concrete aliasing run (`metric=False`) leaves the receiver's slot intact
and returns a fresh reference. -/
theorem buffer_without_overlap_heap_preserves_receiver_witness :
    readH wHeapOut.1 0 = readH wHeap 0 ∧ wHeap.length ≤ wHeapOut.2 ∧ wHeapOut.2 ≠ 0 :=
  buffer_without_overlap_heap_preserves_receiver wOps wHeap 0 1 false wHeapOut (by decide)

end GeoUtils
